import Mathlib

/-!
Shallow embedding of the NEOnet authorization core
(`lib/authorization/permission-utils.ts`, `lib/config/authorization-config.ts`,
`lib/types/authorization.ts`, and the `checkAuthorization` wrapper).

Strings are modelled as Lean `String`; the JavaScript `split(":")` is modelled
character-exactly by `splitColon` on `List Char`.  TypeScript functions that can
`throw` are modelled as `Except PermError _`; a `try { … } catch { return x }`
wrapper is modelled by mapping the error case to `x`.  Console logging
(`console.warn` / `console.error`) and the audit log have no effect on any
returned value and are omitted.
-/

namespace NeoAuth

/-- Risk levels of `ACTION_DEFINITIONS` / `RESOURCE_DEFINITIONS`. -/
inductive RiskLevel where
  | low
  | medium
  | high
  | critical
deriving DecidableEq, Repr

/-- The numeric rank `riskOrder = { critical: 4, high: 3, medium: 2, low: 1 }`
used by `isPermissionStronger` and `getUserEffectivePermissions`. -/
def riskOrder : RiskLevel → Nat
  | .low => 1
  | .medium => 2
  | .high => 3
  | .critical => 4

/-- The keys of `RESOURCE_DEFINITIONS` (authorization-config.ts); the codec only
consults key presence (`!!RESOURCE_DEFINITIONS[resource]`), so the metadata
record values are not needed here. -/
def RESOURCE_KEYS : List String :=
  ["employee", "member", "service", "application", "user", "contact", "file",
   "website", "announcement", "feedback", "billing", "report", "training",
   "equipment"]

/-- `ACTION_DEFINITIONS` (authorization-config.ts), projected to the one field
the embedded functions consume: `riskLevel`. -/
def ACTION_DEFINITIONS : List (String × RiskLevel) :=
  [("view", .low), ("create", .medium), ("update", .medium),
   ("delete", .critical), ("approve", .high), ("reject", .medium),
   ("assign", .medium), ("publish", .medium), ("unpublish", .medium),
   ("download", .low), ("upload", .medium), ("impersonate", .critical),
   ("configure", .high), ("provision", .high), ("suspend", .high),
   ("restore", .high), ("audit", .medium)]

/-- `SCOPE_DEFINITIONS` (authorization-config.ts), projected to the one field
the embedded functions consume: `level`. -/
def SCOPE_DEFINITIONS : List (String × Nat) :=
  [("none", 0), ("owned", 1), ("assigned", 2), ("district", 3),
   ("department", 4), ("region", 5), ("all", 6)]

/-- `!!RESOURCE_DEFINITIONS[resource]` — key-presence test. -/
def resourceDefined (r : String) : Bool := RESOURCE_KEYS.contains r

/-- `ACTION_DEFINITIONS[action]?.riskLevel` — `none` models `undefined`. -/
def actionRisk? (a : String) : Option RiskLevel :=
  (ACTION_DEFINITIONS.find? (fun p => p.1 == a)).map (·.2)

/-- `!!ACTION_DEFINITIONS[action]`. -/
def actionDefined (a : String) : Bool := (actionRisk? a).isSome

/-- `SCOPE_DEFINITIONS[scope]?.level`. -/
def scopeLevel? (s : String) : Option Nat :=
  (SCOPE_DEFINITIONS.find? (fun p => p.1 == s)).map (·.2)

/-- `!!SCOPE_DEFINITIONS[scope]`. -/
def scopeDefined (s : String) : Bool := (scopeLevel? s).isSome

/-- The distinct `Error` messages thrown by the claim codec
(permission-utils.ts), one constructor per distinct message shape. -/
inductive PermError where
  /-- "Permission claim is required" (`!claim`). -/
  | required
  /-- "Permission claim must be in format 'resource:action:scope'". -/
  | invalidFormat
  /-- "Invalid resource type: …" (thrown by `createPermissionClaim`). -/
  | invalidResource (r : String)
  /-- "Invalid action: …" (thrown by `createPermissionClaim`). -/
  | invalidAction (a : String)
  /-- "Invalid scope: …" (thrown by `createPermissionClaim`). -/
  | invalidScope (s : String)
  /-- "Unknown resource type: …" (thrown by `parsePermissionClaim`). -/
  | unknownResource (r : String)
  /-- "Unknown action: …" (thrown by `parsePermissionClaim`). -/
  | unknownAction (a : String)
  /-- "Unknown scope: …" (thrown by `parsePermissionClaim`). -/
  | unknownScope (s : String)
deriving DecidableEq, Repr

/-- Character-exact model of JavaScript `str.split(":")`: every occurrence of
`':'` separates segments, empty segments included, so `"::"` splits into three
empty segments and `""` splits into one empty segment. -/
def splitColon : List Char → List (List Char)
  | [] => [[]]
  | c :: cs =>
    if c = ':' then [] :: splitColon cs
    else
      match splitColon cs with
      | [] => [[c]]
      | p :: ps => (c :: p) :: ps

/-- `createPermissionClaim` (permission-utils.ts).  The advisory
`console.warn` when the scope is not among the resource's `defaultScopes` does
not affect the returned value and is omitted.  A JS falsy check `!resource` is
the empty-string test. -/
def createPermissionClaim (resource action scope : String) :
    Except PermError String :=
  if resource == "" || !resourceDefined resource then
    .error (.invalidResource resource)
  else if action == "" || !actionDefined action then
    .error (.invalidAction action)
  else if scope == "" || !scopeDefined scope then
    .error (.invalidScope scope)
  else
    .ok (resource ++ ":" ++ action ++ ":" ++ scope)

/-- `parsePermissionClaim` (permission-utils.ts). -/
def parsePermissionClaim (claim : String) :
    Except PermError (String × String × String) :=
  if claim == "" then .error .required
  else
    match splitColon claim.data with
    | [r, a, s] =>
      let r := String.mk r
      let a := String.mk a
      let s := String.mk s
      if !resourceDefined r then .error (.unknownResource r)
      else if !actionDefined a then .error (.unknownAction a)
      else if !scopeDefined s then .error (.unknownScope s)
      else .ok (r, a, s)
    | _ => .error .invalidFormat

/-- `Role` (types/authorization.ts), projected to the fields the embedded
functions read: `id`, `name`, `permissions`, `inheritsFrom`, `isActive`.
An absent `inheritsFrom` is modelled as `[]` (the source guards every use
with `role.inheritsFrom && role.inheritsFrom.length > 0`). -/
structure Role where
  id : String
  name : String
  permissions : List String
  inheritsFrom : List String
  isActive : Bool
deriving DecidableEq, Repr

/-- `AuthorizedUser` (types/authorization.ts), projected to the fields the
embedded functions read; an absent `directPermissions?` is modelled as `[]`
(the source reads it as `user.directPermissions?.includes(...)` and
`user.directPermissions || []`). -/
structure AuthorizedUser where
  id : String
  roles : List String
  directPermissions : List String
  isActive : Bool
deriving DecidableEq, Repr

/-- `APP_CONFIG.features.enableRoleInheritance` (authorization-config.ts),
read through `ConfigHelpers.isFeatureEnabled("enableRoleInheritance")`. -/
def enableRoleInheritance : Bool := true

/-- The set of role ids occurring in a role list (termination measure only). -/
def roleIds (allRoles : List Role) : Finset String :=
  (allRoles.map Role.id).toFinset

lemma mem_roleIds_of_find? {allRoles : List Role} {p : Role}
    {f : Role → Bool} (h : allRoles.find? f = some p) :
    p.id ∈ roleIds allRoles := by
  have hmem : p ∈ allRoles := List.mem_of_find?_eq_some h
  simp only [roleIds, List.mem_toFinset, List.mem_map]
  exact ⟨p, hmem, rfl⟩

/-- The traversal measure strictly decreases when descending from a role
(not yet visited) into a parent found in `allRoles`. -/
lemma traversal_measure_lt (allRoles : List Role) (rid pid : String)
    (visited : Finset String) (hv : rid ∉ visited)
    (hid : pid ∈ roleIds allRoles) :
    ((insert pid (roleIds allRoles)) \ insert rid visited).card <
      ((insert rid (roleIds allRoles)) \ visited).card := by
  rw [Finset.insert_eq_self.mpr hid]
  have hin : rid ∈ (insert rid (roleIds allRoles)) \ visited := by
    simp [Finset.mem_sdiff, hv]
  have hsub : roleIds allRoles \ insert rid visited ⊆
      ((insert rid (roleIds allRoles)) \ visited).erase rid := by
    intro x hx
    simp only [Finset.mem_sdiff, Finset.mem_insert, not_or,
      Finset.mem_erase] at hx ⊢
    exact ⟨hx.2.1, Or.inr hx.1, hx.2.2⟩
  calc (roleIds allRoles \ insert rid visited).card
      ≤ (((insert rid (roleIds allRoles)) \ visited).erase rid).card :=
        Finset.card_le_card hsub
    _ = ((insert rid (roleIds allRoles)) \ visited).card - 1 :=
        Finset.card_erase_of_mem hin
    _ < ((insert rid (roleIds allRoles)) \ visited).card :=
        Nat.sub_lt (Finset.card_pos.mpr ⟨rid, hin⟩) Nat.one_pos

/-- `roleHasPermission` (permission-utils.ts).  The mutable per-call
`visited` set, copied to `new Set(visited)` at each recursive call, is the
explicit `visited` argument; the internal `try/catch` is dead code (nothing
in the body throws) and is omitted. -/
def roleHasPermission (role : Role) (perm : String) (allRoles : List Role)
    (visited : Finset String) : Bool :=
  if role.id ∈ visited then false
  else if !role.isActive then false
  else if role.permissions.contains perm then true
  else if enableRoleInheritance && !role.inheritsFrom.isEmpty then
    role.inheritsFrom.any (fun pid =>
      match hp : allRoles.find? (fun r => r.id == pid) with
      | some parentRole =>
        roleHasPermission parentRole perm allRoles (insert role.id visited)
      | none => false)
  else false
termination_by ((insert role.id (roleIds allRoles)) \ visited).card
decreasing_by
  exact traversal_measure_lt allRoles role.id parentRole.id visited
    (by assumption) (mem_roleIds_of_find? hp)

/-- JS `Set` insertion: append only when absent (insertion order kept). -/
def insertUnique (l : List String) (x : String) : List String :=
  if l.contains x then l else l ++ [x]

/-- `xs.forEach(x => set.add(x))` over a JS `Set` modelled as a list. -/
def addAll (l : List String) (xs : List String) : List String :=
  xs.foldl insertUnique l

/-- `getRoleEffectivePermissions` (permission-utils.ts).  Returns
`Array.from` of a JS `Set` seeded with `role.permissions` (note: with no
`isActive` check on `role` itself); parents are looked up with
`allRoles.find(r => r.id === parentRoleId && r.isActive)`.  The internal
`try/catch` is dead code and is omitted. -/
def getRoleEffectivePermissions (role : Role) (allRoles : List Role)
    (visited : Finset String) : List String :=
  if role.id ∈ visited then []
  else
    let base := addAll [] role.permissions
    if enableRoleInheritance && !role.inheritsFrom.isEmpty then
      role.inheritsFrom.foldl (fun acc pid =>
        match hp : allRoles.find? (fun r => r.id == pid && r.isActive) with
        | some parentRole =>
          addAll acc
            (getRoleEffectivePermissions parentRole allRoles
              (insert role.id visited))
        | none => acc) base
    else base
termination_by ((insert role.id (roleIds allRoles)) \ visited).card
decreasing_by
  exact traversal_measure_lt allRoles role.id parentRole.id visited
    (by assumption) (mem_roleIds_of_find? hp)

/-- `getUserEffectivePermissions` (permission-utils.ts), default options.
The `sortByRisk` option only reorders the returned array and the
`try/catch` cannot fire on the default path, so both are omitted. -/
def getUserEffectivePermissions (user : AuthorizedUser) (roles : List Role) :
    List String :=
  let eff := addAll [] user.directPermissions
  let userRoles := roles.filter (fun role =>
    user.roles.contains role.id && role.isActive)
  userRoles.foldl (fun acc role =>
    addAll acc (getRoleEffectivePermissions role roles ∅)) eff

/-- A `permissionCache` value: `{ result: boolean; timestamp: number }`. -/
structure CacheEntry where
  result : Bool
  timestamp : Nat
deriving DecidableEq, Repr

/-- The module-level `permissionCache : Map<string, CacheEntry>`, modelled as
an association list keyed by the raw `` `${user.id}:${permission}` `` string. -/
def Cache := List (String × CacheEntry)

/-- `CACHE_TTL = 5 * 60 * 1000` (milliseconds). -/
def CACHE_TTL : Nat := 5 * 60 * 1000

/-- `Map.prototype.get`. -/
def cacheGet (cache : Cache) (key : String) : Option CacheEntry :=
  (cache.find? (fun kv => kv.1 == key)).map (·.2)

/-- `Map.prototype.set`: overwrite in place, else append. -/
def cacheSet : Cache → String → CacheEntry → Cache
  | [], key, v => [(key, v)]
  | kv :: rest, key, v =>
    if kv.1 == key then (key, v) :: rest else kv :: cacheSet rest key v

/-- JavaScript `s.startsWith(pre)`. -/
def jsStartsWith (s pre : String) : Bool := pre.data.isPrefixOf s.data

/-- `clearPermissionCache` (permission-utils.ts): the guard `if (userId)` is
a JS falsy test, so a present but EMPTY id behaves like an absent one; with a
non-empty `userId`, delete every key starting with `` `${userId}:` ``;
otherwise clear the whole map. -/
def clearPermissionCache (userId : Option String) (cache : Cache) : Cache :=
  match userId with
  | some uid =>
    if uid == "" then []
    else cache.filter (fun kv => !jsStartsWith kv.1 (uid ++ ":"))
  | none => []

/-- `hasPermission` (permission-utils.ts).  The module-level cache and the
wall clock (`Date.now()`) are explicit arguments; the result is the returned
boolean paired with the cache state after the call.  The outer
`try { … } catch { return false }` maps the `createPermissionClaim` throw
(the only statement in the body that can throw) to `(false, cache)`;
`options.useCache !== false` is the `useCache` flag (default `true`);
`logAccess` and the performance warning have no effect on the result. -/
def hasPermission (user : Option AuthorizedUser)
    (resource action scope : String) (roles : List Role)
    (useCache : Bool) (cache : Cache) (now : Nat) : Bool × Cache :=
  match user with
  | none => (false, cache)
  | some u =>
    if !u.isActive then (false, cache)
    else
      match createPermissionClaim resource action scope with
      | .error _ => (false, cache)
      | .ok permissionToCheck =>
        let cacheKey := u.id ++ ":" ++ permissionToCheck
        let cached : Option Bool :=
          if useCache then
            match cacheGet cache cacheKey with
            | some e => if now - e.timestamp < CACHE_TTL then
                some e.result else none
            | none => none
          else none
        match cached with
        | some result => (result, cache)
        | none =>
          let hasAccess :=
            u.directPermissions.contains permissionToCheck ||
              (roles.filter (fun role =>
                u.roles.contains role.id && role.isActive)).any
                (fun role => roleHasPermission role permissionToCheck roles ∅)
          (hasAccess,
            if useCache then
              cacheSet cache cacheKey ⟨hasAccess, now⟩
            else cache)

/-- The `{ authorized, error? }` result of `checkAuthorization`. -/
structure AuthzResult where
  authorized : Bool
  error : Option String
deriving DecidableEq, Repr

/-- `checkAuthorization` (auth-components.tsx).  Its `try/catch` is dead code
because the embedded `hasPermission` is total (it catches internally), so the
`catch` branch is omitted. -/
def checkAuthorization (user : Option AuthorizedUser)
    (resource action scope : String) (roles : List Role)
    (cache : Cache) (now : Nat) : AuthzResult :=
  match user with
  | none => ⟨false, some "User not authenticated"⟩
  | some u =>
    if !u.isActive then ⟨false, some "User account is inactive"⟩
    else
      let authorized :=
        (hasPermission (some u) resource action scope roles true cache now).1
      ⟨authorized,
        if authorized then none
        else some ("Insufficient permissions: " ++ resource ++ ":" ++
          action ++ ":" ++ scope)⟩

/-- `ACTION_DEFINITIONS[act]?.riskLevel || "low"` (every risk string is
truthy, so `||` only replaces `undefined`). -/
def actionRiskOrLow (a : String) : RiskLevel := (actionRisk? a).getD .low

/-- `SCOPE_DEFINITIONS[scope]?.level || 0` (level `0` is falsy but `|| 0`
yields `0` again, so this is exactly `getD 0`). -/
def scopeLevelOrZero (s : String) : Nat := (scopeLevel? s).getD 0

/-- `isPermissionStronger` (permission-utils.ts); the `try/catch` turns a
parse failure on either argument into `false`. -/
def isPermissionStronger (permA permB : String) : Bool :=
  match parsePermissionClaim permA, parsePermissionClaim permB with
  | .ok (resA, actA, scopeA), .ok (resB, actB, scopeB) =>
    if resA != resB then false
    else if actA != actB then
      riskOrder (actionRiskOrLow actA) > riskOrder (actionRiskOrLow actB)
    else
      scopeLevelOrZero scopeA > scopeLevelOrZero scopeB
  | _, _ => false

/-- Spec wording (§3 / §8): the claim string "splits into exactly three
non-empty, colon-delimited segments".  Stated from the spec's words, to be
compared with the behavior of `parsePermissionClaim`. -/
def threeNonemptySegments (s : String) : Bool :=
  match splitColon s.data with
  | [r, a, p] => !r.isEmpty && !a.isEmpty && !p.isEmpty
  | _ => false

/-! ## Helper lemmas -/

lemma mk_data (s : String) : String.mk s.data = s := rfl

lemma splitColon_ne_nil (l : List Char) : splitColon l ≠ [] := by
  induction l with
  | nil => simp [splitColon]
  | cons c cs ih =>
    simp only [splitColon]
    split
    · simp
    · cases h : splitColon cs with
      | nil => simp
      | cons p ps => simp

/-- Splitting a list that starts with a colon-free prefix `r` followed by a
colon: the prefix is the first segment. -/
lemma splitColon_append (r t : List Char) (hr : ':' ∉ r) :
    splitColon (r ++ ':' :: t) = r :: splitColon t := by
  induction r with
  | nil => simp [splitColon]
  | cons c cs ih =>
    have hc : c ≠ ':' := fun h => hr (h ▸ List.mem_cons_self c cs)
    have hcs : ':' ∉ cs := fun h => hr (List.mem_cons_of_mem c h)
    simp only [List.cons_append, splitColon, if_neg hc]
    rw [show splitColon (cs.append (':' :: t)) = cs :: splitColon t from ih hcs]

/-- A colon-free list is a single segment. -/
lemma splitColon_colonFree (l : List Char) (hl : ':' ∉ l) :
    splitColon l = [l] := by
  induction l with
  | nil => rfl
  | cons c cs ih =>
    have hc : c ≠ ':' := fun h => hl (h ▸ List.mem_cons_self c cs)
    have hcs : ':' ∉ cs := fun h => hl (List.mem_cons_of_mem c h)
    simp only [splitColon, if_neg hc, ih hcs]

/-- Every resource token of the enumeration is colon-free and non-empty. -/
lemma resource_token_ok {r : String} (h : resourceDefined r = true) :
    ':' ∉ r.data ∧ r ≠ "" := by
  have hm : r ∈ RESOURCE_KEYS := by
    simpa [resourceDefined] using h
  fin_cases hm <;> decide

/-- Every action token of the enumeration is colon-free and non-empty. -/
lemma action_token_ok {a : String} (h : actionDefined a = true) :
    ':' ∉ a.data ∧ a ≠ "" := by
  have hm : ∃ p ∈ ACTION_DEFINITIONS, (fun p => p.1 == a) p = true := by
    rw [← List.find?_isSome]
    simpa [actionDefined, actionRisk?] using h
  obtain ⟨p, hp, he⟩ := hm
  have ha : p.1 = a := by simpa using he
  subst ha
  fin_cases hp <;> decide

/-- Every scope token of the enumeration is colon-free and non-empty. -/
lemma scope_token_ok {s : String} (h : scopeDefined s = true) :
    ':' ∉ s.data ∧ s ≠ "" := by
  have hm : ∃ p ∈ SCOPE_DEFINITIONS, (fun p => p.1 == s) p = true := by
    rw [← List.find?_isSome]
    simpa [scopeDefined, scopeLevel? ] using h
  obtain ⟨p, hp, he⟩ := hm
  have hs : p.1 = s := by simpa using he
  subst hs
  fin_cases hp <;> decide

/-- On a valid triple, `createPermissionClaim` succeeds with the canonical
`resource:action:scope` string. -/
lemma createPermissionClaim_ok {r a s : String}
    (hr : resourceDefined r = true) (ha : actionDefined a = true)
    (hs : scopeDefined s = true) :
    createPermissionClaim r a s = .ok (r ++ ":" ++ a ++ ":" ++ s) := by
  have hr' := (resource_token_ok hr).2
  have ha' := (action_token_ok ha).2
  have hs' := (scope_token_ok hs).2
  simp [createPermissionClaim, hr, ha, hs, hr', ha', hs']

/-- The character data of a canonical claim string. -/
lemma claim_data (r a s : String) :
    (r ++ ":" ++ a ++ ":" ++ s).data =
      r.data ++ ':' :: (a.data ++ ':' :: s.data) := by
  simp [String.data_append]

/-- On a valid triple, parsing the canonical claim string returns the triple. -/
lemma parsePermissionClaim_canonical {r a s : String}
    (hr : resourceDefined r = true) (ha : actionDefined a = true)
    (hs : scopeDefined s = true) :
    parsePermissionClaim (r ++ ":" ++ a ++ ":" ++ s) = .ok (r, a, s) := by
  have hrc := (resource_token_ok hr).1
  have hac := (action_token_ok ha).1
  have hsc := (scope_token_ok hs).1
  have hsplit : splitColon (r ++ ":" ++ a ++ ":" ++ s).data =
      [r.data, a.data, s.data] := by
    rw [claim_data, splitColon_append _ _ hrc, splitColon_append _ _ hac,
      splitColon_colonFree _ hsc]
  have hne : (r ++ ":" ++ a ++ ":" ++ s) ≠ "" := by
    intro h
    have : (r ++ ":" ++ a ++ ":" ++ s).data = [] := by rw [h]
    rw [claim_data] at this
    simp at this
  unfold parsePermissionClaim
  rw [if_neg (by simp [hne])]
  rw [hsplit]
  simp [mk_data, hr, ha, hs]

/-- `roleHasPermission` unfolding with a plain (equation-free) match, for
rewriting. -/
lemma roleHasPermission_eq (role : Role) (perm : String) (allRoles : List Role)
    (visited : Finset String) :
    roleHasPermission role perm allRoles visited =
      (if role.id ∈ visited then false
      else if !role.isActive then false
      else if role.permissions.contains perm then true
      else if enableRoleInheritance && !role.inheritsFrom.isEmpty then
        role.inheritsFrom.any (fun pid =>
          match allRoles.find? (fun r => r.id == pid) with
          | some parentRole =>
            roleHasPermission parentRole perm allRoles (insert role.id visited)
          | none => false)
      else false) := by
  rw [roleHasPermission.eq_def]
  have h : ∀ pid : String,
      (match hp : allRoles.find? (fun r => r.id == pid) with
        | some parentRole =>
          roleHasPermission parentRole perm allRoles (insert role.id visited)
        | none => false) =
      (match allRoles.find? (fun r => r.id == pid) with
        | some parentRole =>
          roleHasPermission parentRole perm allRoles (insert role.id visited)
        | none => false) := by
    intro pid
    cases hfind : allRoles.find? (fun r => r.id == pid) <;> rfl
  simp only [h]

/-- `getRoleEffectivePermissions` unfolding with a plain match, for
rewriting. -/
lemma getRoleEffectivePermissions_eq (role : Role) (allRoles : List Role)
    (visited : Finset String) :
    getRoleEffectivePermissions role allRoles visited =
      (if role.id ∈ visited then []
      else if enableRoleInheritance && !role.inheritsFrom.isEmpty then
        role.inheritsFrom.foldl (fun acc pid =>
          match allRoles.find? (fun r => r.id == pid && r.isActive) with
          | some parentRole =>
            addAll acc
              (getRoleEffectivePermissions parentRole allRoles
                (insert role.id visited))
          | none => acc) (addAll [] role.permissions)
      else addAll [] role.permissions) := by
  rw [getRoleEffectivePermissions.eq_def]
  have h : ∀ (acc : List String) (pid : String),
      (match hp : allRoles.find? (fun r => r.id == pid && r.isActive) with
        | some parentRole =>
          addAll acc
            (getRoleEffectivePermissions parentRole allRoles
              (insert role.id visited))
        | none => acc) =
      (match allRoles.find? (fun r => r.id == pid && r.isActive) with
        | some parentRole =>
          addAll acc
            (getRoleEffectivePermissions parentRole allRoles
              (insert role.id visited))
        | none => acc) := by
    intro acc pid
    cases hfind : allRoles.find? (fun r => r.id == pid && r.isActive) <;> rfl
  simp only [h]

lemma mem_insertUnique {c x : String} {l : List String} :
    c ∈ insertUnique l x ↔ c ∈ l ∨ c = x := by
  unfold insertUnique
  split
  · next h =>
    constructor
    · exact Or.inl
    · rintro (hc | rfl)
      · exact hc
      · simpa using h
  · simp

lemma mem_addAll {c : String} {l xs : List String} :
    c ∈ addAll l xs ↔ c ∈ l ∨ c ∈ xs := by
  induction xs generalizing l with
  | nil => simp [addAll]
  | cons x xs ih =>
    simp only [addAll, List.foldl_cons] at *
    rw [ih, mem_insertUnique]
    constructor
    · rintro ((hc | rfl) | hc)
      · exact Or.inl hc
      · exact Or.inr (List.mem_cons_self _ _)
      · exact Or.inr (List.mem_cons_of_mem _ hc)
    · rintro (hc | hc)
      · exact Or.inl (Or.inl hc)
      · rcases List.mem_cons.mp hc with rfl | hc
        · exact Or.inl (Or.inr rfl)
        · exact Or.inr hc

/-! ## Claim theorems -/

/-- On a non-empty input, `parsePermissionClaim` is the split-and-validate
match. -/
lemma parsePermissionClaim_of_ne {c : String} (hc : c ≠ "") :
    parsePermissionClaim c =
      match splitColon c.data with
      | [r, a, s] =>
        let r := String.mk r
        let a := String.mk a
        let s := String.mk s
        if !resourceDefined r then .error (.unknownResource r)
        else if !actionDefined a then .error (.unknownAction a)
        else if !scopeDefined s then .error (.unknownScope s)
        else .ok (r, a, s)
      | _ => .error .invalidFormat := by
  unfold parsePermissionClaim
  rw [if_neg (by simp [hc])]

/-- C2: for every valid triple (resource, action, scope) — each component in
its enumeration — `parsePermissionClaim (createPermissionClaim resource action
scope)` succeeds and returns exactly (resource, action, scope). -/
theorem roundtrip_parse_create (r a s : String)
    (hr : resourceDefined r = true) (ha : actionDefined a = true)
    (hs : scopeDefined s = true) :
    (createPermissionClaim r a s).bind parsePermissionClaim = .ok (r, a, s) := by
  rw [createPermissionClaim_ok hr ha hs]
  simpa [Except.bind] using parsePermissionClaim_canonical hr ha hs

/-- C5 counterexample: `"::"` splits into three colon-delimited segments that
are all empty, so it does not split into three non-empty segments; the claim
then requires the format error, but `parsePermissionClaim "::"` fails with
`UnknownResource ""` instead. -/
theorem parse_invalidFormat_cex :
    threeNonemptySegments "::" = false ∧
      parsePermissionClaim "::" = .error (.unknownResource "") ∧
      parsePermissionClaim "::" ≠ .error .invalidFormat := by
  refine ⟨rfl, rfl, ?_⟩
  have h : parsePermissionClaim "::" = .error (.unknownResource "") := rfl
  rw [h]
  simp

/-- C5 (amended): `parsePermissionClaim` fails with `Required` exactly on the
empty string; on non-empty input it fails with `InvalidFormat` exactly when
split-by-colon does not yield exactly three segments (segments may be empty);
when the split yields exactly three segments, it fails with `UnknownResource`
/ `UnknownAction` / `UnknownScope` naming the first segment outside its
enumeration, and succeeds with the three segments otherwise. -/
theorem parse_error_taxonomy (c : String) :
    (parsePermissionClaim c = .error .required ↔ c = "") ∧
    (parsePermissionClaim c = .error .invalidFormat ↔
      c ≠ "" ∧ (splitColon c.data).length ≠ 3) ∧
    (∀ r a s : List Char, c ≠ "" → splitColon c.data = [r, a, s] →
      ((resourceDefined (String.mk r) = false →
          parsePermissionClaim c = .error (.unknownResource (String.mk r))) ∧
        (resourceDefined (String.mk r) = true →
            actionDefined (String.mk a) = false →
          parsePermissionClaim c = .error (.unknownAction (String.mk a))) ∧
        (resourceDefined (String.mk r) = true →
            actionDefined (String.mk a) = true →
            scopeDefined (String.mk s) = false →
          parsePermissionClaim c = .error (.unknownScope (String.mk s))) ∧
        (resourceDefined (String.mk r) = true →
            actionDefined (String.mk a) = true →
            scopeDefined (String.mk s) = true →
          parsePermissionClaim c =
            .ok (String.mk r, String.mk a, String.mk s)))) := by
  by_cases hc : c = ""
  · subst hc
    refine ⟨by simp [parsePermissionClaim], ?_, ?_⟩
    · have h : parsePermissionClaim "" = .error .required := rfl
      rw [h]
      simp
    · intro r a s hne
      exact absurd rfl hne
  · rw [parsePermissionClaim_of_ne hc]
    refine ⟨?_, ?_, ?_⟩
    · rcases hs : splitColon c.data with _ | ⟨x, _ | ⟨y, _ | ⟨z, _ | ⟨w, t⟩⟩⟩⟩ <;>
        simp only [hs] <;> (try split_ifs) <;> simp [hc]
    · rcases hs : splitColon c.data with _ | ⟨x, _ | ⟨y, _ | ⟨z, _ | ⟨w, t⟩⟩⟩⟩ <;>
        simp only [hs] <;> (try split_ifs) <;> simp [hc]
    · intro r a s hne hsplit
      rw [hsplit]
      refine ⟨?_, ?_, ?_, ?_⟩ <;> intros <;> simp_all

/-- Witness for the C5 taxonomy at the concrete input "employee:view:all". -/
theorem parse_error_taxonomy_witness :
    parsePermissionClaim "employee:view:all" =
      .ok ("employee", "view", "all") :=
  ((parse_error_taxonomy "employee:view:all").2.2
      "employee".data "view".data "all".data
      (by decide) (by decide)).2.2.2 (by decide) (by decide) (by decide)

/-- Reduction of `isPermissionStronger` on two canonical valid claims. -/
lemma isPermissionStronger_canonical
    {rA aA sA rB aB sB : String}
    (hrA : resourceDefined rA = true) (haA : actionDefined aA = true)
    (hsA : scopeDefined sA = true)
    (hrB : resourceDefined rB = true) (haB : actionDefined aB = true)
    (hsB : scopeDefined sB = true) :
    isPermissionStronger (rA ++ ":" ++ aA ++ ":" ++ sA)
        (rB ++ ":" ++ aB ++ ":" ++ sB) =
      (if rA != rB then false
      else if aA != aB then
        riskOrder (actionRiskOrLow aA) > riskOrder (actionRiskOrLow aB)
      else
        scopeLevelOrZero sA > scopeLevelOrZero sB) := by
  unfold isPermissionStronger
  rw [parsePermissionClaim_canonical hrA haA hsA,
    parsePermissionClaim_canonical hrB haB hsB]

/-- C7: for every pair of valid claims, `isPermissionStronger` is false on
distinct resources; on equal resources it compares action risk ranks
(strictly) when actions differ, and scope levels (strictly) when actions
agree; and the embedded tables realize the fixed rank orders
critical > high > medium > low and
none=0 < owned=1 < assigned=2 < district=3 < department=4 < region=5 <
all=6. -/
theorem stronger_spec
    (rA aA sA rB aB sB : String)
    (hrA : resourceDefined rA = true) (haA : actionDefined aA = true)
    (hsA : scopeDefined sA = true)
    (hrB : resourceDefined rB = true) (haB : actionDefined aB = true)
    (hsB : scopeDefined sB = true) :
    (rA ≠ rB →
      isPermissionStronger (rA ++ ":" ++ aA ++ ":" ++ sA)
        (rB ++ ":" ++ aB ++ ":" ++ sB) = false) ∧
    (rA = rB → aA ≠ aB →
      (isPermissionStronger (rA ++ ":" ++ aA ++ ":" ++ sA)
          (rB ++ ":" ++ aB ++ ":" ++ sB) = true ↔
        riskOrder (actionRiskOrLow aA) > riskOrder (actionRiskOrLow aB))) ∧
    (rA = rB → aA = aB →
      (isPermissionStronger (rA ++ ":" ++ aA ++ ":" ++ sA)
          (rB ++ ":" ++ aB ++ ":" ++ sB) = true ↔
        scopeLevelOrZero sA > scopeLevelOrZero sB)) ∧
    (riskOrder .critical > riskOrder .high ∧
      riskOrder .high > riskOrder .medium ∧
      riskOrder .medium > riskOrder .low) ∧
    (scopeLevelOrZero "none" = 0 ∧ scopeLevelOrZero "owned" = 1 ∧
      scopeLevelOrZero "assigned" = 2 ∧ scopeLevelOrZero "district" = 3 ∧
      scopeLevelOrZero "department" = 4 ∧ scopeLevelOrZero "region" = 5 ∧
      scopeLevelOrZero "all" = 6) := by
  rw [isPermissionStronger_canonical hrA haA hsA hrB haB hsB]
  refine ⟨?_, ?_, ?_, by decide, by decide⟩
  · intro h
    simp [h]
  · intro hr ha
    simp [hr, ha]
  · intro hr ha
    simp [hr, ha]

/-- Witness for C7: `member:view:all` is stronger than
`member:view:assigned`, by the scope clause. -/
theorem stronger_spec_witness :
    isPermissionStronger "member:view:all" "member:view:assigned" = true :=
  ((stronger_spec "member" "view" "all" "member" "view" "assigned"
      (by decide) (by decide) (by decide) (by decide) (by decide)
      (by decide)).2.2.1 rfl rfl).mpr (by decide)

/-- C10: over valid claims, `isPermissionStronger` is irreflexive and
asymmetric. -/
theorem stronger_irrefl_asymm :
    (∀ r a s : String, resourceDefined r = true → actionDefined a = true →
      scopeDefined s = true →
      isPermissionStronger (r ++ ":" ++ a ++ ":" ++ s)
        (r ++ ":" ++ a ++ ":" ++ s) = false) ∧
    (∀ rA aA sA rB aB sB : String,
      resourceDefined rA = true → actionDefined aA = true →
      scopeDefined sA = true → resourceDefined rB = true →
      actionDefined aB = true → scopeDefined sB = true →
      ¬(isPermissionStronger (rA ++ ":" ++ aA ++ ":" ++ sA)
          (rB ++ ":" ++ aB ++ ":" ++ sB) = true ∧
        isPermissionStronger (rB ++ ":" ++ aB ++ ":" ++ sB)
          (rA ++ ":" ++ aA ++ ":" ++ sA) = true)) := by
  constructor
  · intro r a s hr ha hs
    rw [isPermissionStronger_canonical hr ha hs hr ha hs]
    simp
  · intro rA aA sA rB aB sB hrA haA hsA hrB haB hsB h
    rw [isPermissionStronger_canonical hrA haA hsA hrB haB hsB,
      isPermissionStronger_canonical hrB haB hsB hrA haA hsA] at h
    obtain ⟨h1, h2⟩ := h
    by_cases hr : rA = rB
    · subst hr
      simp only [bne_self_eq_false, Bool.false_eq_true, if_false] at h1 h2
      by_cases ha : aA = aB
      · subst ha
        simp only [bne_self_eq_false, Bool.false_eq_true, if_false,
          decide_eq_true_eq] at h1 h2
        exact absurd h2 (Nat.lt_asymm h1)
      · have hab : (aA != aB) = true := bne_iff_ne.mpr ha
        have hba : (aB != aA) = true := bne_iff_ne.mpr (Ne.symm ha)
        rw [if_pos hab] at h1
        rw [if_pos hba] at h2
        simp only [decide_eq_true_eq] at h1 h2
        exact absurd h2 (Nat.lt_asymm h1)
    · have : (rA != rB) = true := bne_iff_ne.mpr hr
      rw [if_pos this] at h1
      exact Bool.false_ne_true h1

/-- Witness for C10 at the concrete claims `employee:view:all` and
`employee:delete:owned`. -/
theorem stronger_irrefl_asymm_witness :
    isPermissionStronger "employee:view:all" "employee:view:all" = false ∧
      ¬(isPermissionStronger "employee:view:all" "employee:delete:owned" =
          true ∧
        isPermissionStronger "employee:delete:owned" "employee:view:all" =
          true) :=
  ⟨stronger_irrefl_asymm.1 "employee" "view" "all"
      (by decide) (by decide) (by decide),
    stronger_irrefl_asymm.2 "employee" "view" "all" "employee" "delete"
      "owned" (by decide) (by decide) (by decide) (by decide) (by decide)
      (by decide)⟩

/-- C1 counterexample: for an active user and the invalid resource
"badresource", claim validation fails inside `hasPermission`, yet the caller
receives the boolean `false` (and `checkAuthorization` reports
`authorized: false`), not a propagated error. -/
theorem validation_error_swallowed_cex :
    createPermissionClaim "badresource" "view" "all" =
        .error (.invalidResource "badresource") ∧
      hasPermission (some ⟨"u1", [], [], true⟩) "badresource" "view" "all"
        [] true ([] : Cache) 0 = (false, ([] : Cache)) ∧
      (checkAuthorization (some ⟨"u1", [], [], true⟩) "badresource" "view"
        "all" [] ([] : Cache) 0).authorized = false :=
  ⟨rfl, rfl, rfl⟩

/-- C1 (amended): a (resource, action, scope) triple that fails claim
validation never propagates as an error to the caller of `hasPermission` /
`checkAuthorization`: the throw from the Claim Codec is caught and the call
reports a denial (`false` / `authorized: false`), leaving the cache
untouched. -/
theorem validation_error_denied (user : AuthorizedUser) (r a s : String)
    (roles : List Role) (useCache : Bool) (cache : Cache) (now : Nat)
    (e : PermError) (he : createPermissionClaim r a s = .error e) :
    hasPermission (some user) r a s roles useCache cache now =
        (false, cache) ∧
      (checkAuthorization (some user) r a s roles cache now).authorized =
        false := by
  by_cases hA : user.isActive <;>
    simp [hasPermission, checkAuthorization, he, hA]

/-- Witness for the amended C1 at the invalid action "hack". -/
theorem validation_error_denied_witness :
    hasPermission (some ⟨"u2", [], [], true⟩) "employee" "hack" "all" []
        true ([] : Cache) 5 = (false, ([] : Cache)) ∧
      (checkAuthorization (some ⟨"u2", [], [], true⟩) "employee" "hack"
        "all" [] ([] : Cache) 5).authorized = false :=
  validation_error_denied ⟨"u2", [], [], true⟩ "employee" "hack" "all" []
    true ([] : Cache) 5 (.invalidAction "hack") rfl

/-- C9: `hasPermission` is total (it always returns a boolean and a cache
state) and catches every internal error: whenever claim validation — the only
throwing statement in its body — fails, the call returns `false`, for any
user (absent, inactive, or active). -/
theorem hasPermission_error_to_false (user : Option AuthorizedUser)
    (r a s : String) (roles : List Role) (useCache : Bool) (cache : Cache)
    (now : Nat) (e : PermError)
    (he : createPermissionClaim r a s = .error e) :
    (hasPermission user r a s roles useCache cache now).1 = false := by
  cases user with
  | none => rfl
  | some u =>
    by_cases hA : u.isActive <;> simp [hasPermission, he, hA]

/-- Witness for C9 at the invalid scope "everywhere" with an active user. -/
theorem hasPermission_error_to_false_witness :
    (hasPermission (some ⟨"u3", ["r1"], ["employee:view:all"], true⟩)
        "employee" "view" "everywhere" [] true ([] : Cache) 7).1 = false :=
  hasPermission_error_to_false
    (some ⟨"u3", ["r1"], ["employee:view:all"], true⟩) "employee" "view"
    "everywhere" [] true ([] : Cache) 7 (.invalidScope "everywhere") rfl

/-- C4 counterexample: an inactive principal holding the direct permission
"employee:view:all" still gets it back from
`getUserEffectivePermissions` — the function never consults `isActive`. -/
theorem inactive_user_effective_cex :
    (AuthorizedUser.mk "u1" [] ["employee:view:all"] false).isActive =
        false ∧
      getUserEffectivePermissions
        (AuthorizedUser.mk "u1" [] ["employee:view:all"] false) [] =
        ["employee:view:all"] ∧
      (["employee:view:all"] : List String) ≠ [] :=
  ⟨rfl, rfl, by simp⟩

/-- C4 (amended): `getUserEffectivePermissions` does not consult the
principal's `isActive` flag at all — its result is unchanged under any value
of the flag (inactivity is enforced by the decision entry points, not by the
enumeration). -/
theorem effective_permissions_ignore_isActive (u : AuthorizedUser)
    (roles : List Role) (b : Bool) :
    getUserEffectivePermissions { u with isActive := b } roles =
      getUserEffectivePermissions u roles := rfl

/-- If two colon-free tokens are each followed by a colon, a prefix relation
between the extended lists forces the tokens to coincide. -/
lemma prefix_token_eq (xs ys u v : List Char) (hx : ':' ∉ xs)
    (hy : ':' ∉ ys) (h : (xs ++ ':' :: u) <+: (ys ++ ':' :: v)) :
    xs = ys := by
  induction xs generalizing ys with
  | nil =>
    cases ys with
    | nil => rfl
    | cons y ys' =>
      rw [List.nil_append, List.cons_append, List.cons_prefix_cons] at h
      exact absurd (h.1 ▸ List.mem_cons_self y ys') hy
  | cons x xs' ih =>
    cases ys with
    | nil =>
      rw [List.cons_append, List.nil_append, List.cons_prefix_cons] at h
      exact absurd (h.1 ▸ List.mem_cons_self x xs') hx
    | cons y ys' =>
      rw [List.cons_append, List.cons_append, List.cons_prefix_cons] at h
      have hx' : ':' ∉ xs' := fun hm => hx (List.mem_cons_of_mem x hm)
      have hy' : ':' ∉ ys' := fun hm => hy (List.mem_cons_of_mem y hm)
      rw [h.1, ih ys' hx' hy' h.2]

/-- Filtering with a predicate that holds on every entry carrying the looked
up key does not change the result of the lookup. -/
lemma find?_filter_key (l : List (String × CacheEntry)) (key : String)
    (pred : String × CacheEntry → Bool)
    (hkeep : ∀ kv : String × CacheEntry, kv.1 = key → pred kv = true) :
    (l.filter pred).find? (fun kv => kv.1 == key) =
      l.find? (fun kv => kv.1 == key) := by
  induction l with
  | nil => rfl
  | cons kv t ih =>
    by_cases hk : kv.1 = key
    · rw [List.filter_cons, if_pos (hkeep kv hk)]
      rw [List.find?_cons_of_pos _ (by simp [hk]),
        List.find?_cons_of_pos _ (by simp [hk])]
    · rw [List.filter_cons]
      split
      · rw [List.find?_cons_of_neg _ (by simp [hk]),
          List.find?_cons_of_neg _ (by simp [hk]), ih]
      · rw [List.find?_cons_of_neg _ (by simp [hk]), ih]

/-- C8 counterexample: clearing principal "a" also deletes the cache entry of
the different principal "a:x" (keys are raw `` `${userId}:${claim}` ``
strings matched by `startsWith`), so an entry whose principal id differs
from the cleared id is not always preserved. -/
theorem clearCache_cross_principal_cex :
    ("a:x" : String) ≠ "a" ∧
      cacheGet [("a:x" ++ ":" ++ "employee:view:all",
          CacheEntry.mk true 0)]
        ("a:x" ++ ":" ++ "employee:view:all") = some (CacheEntry.mk true 0) ∧
      clearPermissionCache (some "a")
        [("a:x" ++ ":" ++ "employee:view:all", CacheEntry.mk true 0)] =
        ([] : Cache) :=
  ⟨by decide, rfl, rfl⟩

/-- C8 (amended): provided principal ids are non-empty and colon-free,
clearing principal `p` preserves the entry of every other principal `q`
(per-key lookup unchanged); clearing with no id — or with the empty id,
which the JS falsy guard `if (userId)` treats as absent — empties the whole
cache.  (With a colon in a principal id, key prefixes can capture another
principal's entries, as the counterexample shows; with the empty id every
other principal's entries are deleted.) -/
theorem clearCache_frame (cache : Cache) (p q claim : String)
    (hpne : p ≠ "") (hp : ':' ∉ p.data) (hq : ':' ∉ q.data) (hne : q ≠ p) :
    cacheGet (clearPermissionCache (some p) cache) (q ++ ":" ++ claim) =
        cacheGet cache (q ++ ":" ++ claim) ∧
      clearPermissionCache none cache = ([] : Cache) ∧
      clearPermissionCache (some "") cache = ([] : Cache) := by
  refine ⟨?_, rfl, rfl⟩
  have hclear : clearPermissionCache (some p) cache =
      cache.filter (fun kv => !jsStartsWith kv.1 (p ++ ":")) := by
    simp [clearPermissionCache, hpne]
  rw [hclear]
  unfold cacheGet
  rw [find?_filter_key]
  intro kv hk
  rw [hk]
  simp only [jsStartsWith, Bool.not_eq_true']
  rw [← Bool.not_eq_true]
  intro hpre
  rw [List.isPrefixOf_iff_prefix] at hpre
  have hpd : (p ++ ":").data = p.data ++ ':' :: [] := by
    simp [String.data_append]
  have hqd : (q ++ ":" ++ claim).data = q.data ++ ':' :: claim.data := by
    simp [String.data_append]
  rw [hpd, hqd] at hpre
  have hdata := prefix_token_eq p.data q.data [] claim.data hp hq hpre
  have h2 : p = q := by
    have h1 := congrArg String.mk hdata
    rwa [mk_data, mk_data] at h1
  exact hne h2.symm

/-- Witness for the amended C8: clearing "a" keeps principal "b"'s entry. -/
theorem clearCache_frame_witness :
    cacheGet
        (clearPermissionCache (some "a")
          [("b" ++ ":" ++ "employee:view:all", CacheEntry.mk true 0)])
        ("b" ++ ":" ++ "employee:view:all") =
      cacheGet [("b" ++ ":" ++ "employee:view:all", CacheEntry.mk true 0)]
        ("b" ++ ":" ++ "employee:view:all") ∧
      clearPermissionCache none
        [("b" ++ ":" ++ "employee:view:all", CacheEntry.mk true 0)] =
        ([] : Cache) ∧
      clearPermissionCache (some "")
        [("b" ++ ":" ++ "employee:view:all", CacheEntry.mk true 0)] =
        ([] : Cache) :=
  clearCache_frame
    [("b" ++ ":" ++ "employee:view:all", CacheEntry.mk true 0)] "a" "b"
    "employee:view:all" (by decide) (by decide) (by decide) (by decide)

/-- An inactive role never grants a permission through
`roleHasPermission`. -/
lemma rHP_inactive {role : Role} {c : String} {allRoles : List Role}
    {visited : Finset String} (hact : role.isActive = false) :
    roleHasPermission role c allRoles visited = false := by
  rw [roleHasPermission_eq]
  split
  · rfl
  · rw [hact]
    simp

/-- Membership in the parent-accumulating fold of
`getRoleEffectivePermissions`. -/
lemma mem_parents_foldl (pids : List String) (acc : List String)
    (g : String → Option (List String)) (c : String) :
    c ∈ pids.foldl (fun acc pid =>
        match g pid with
        | some xs => addAll acc xs
        | none => acc) acc ↔
      c ∈ acc ∨ ∃ pid ∈ pids, ∃ xs, g pid = some xs ∧ c ∈ xs := by
  induction pids generalizing acc with
  | nil => simp
  | cons pid pids ih =>
    simp only [List.foldl_cons]
    cases hg : g pid with
    | none =>
      simp only [ih, List.mem_cons]
      constructor
      · rintro (hc | ⟨q, hq, xs, hgq, hcx⟩)
        · exact Or.inl hc
        · exact Or.inr ⟨q, Or.inr hq, xs, hgq, hcx⟩
      · rintro (hc | ⟨q, (rfl | hq), xs, hgq, hcx⟩)
        · exact Or.inl hc
        · rw [hg] at hgq
          exact absurd hgq (by simp)
        · exact Or.inr ⟨q, hq, xs, hgq, hcx⟩
    | some xs =>
      simp only [ih, mem_addAll, List.mem_cons]
      constructor
      · rintro ((hc | hcx) | ⟨q, hq, ys, hgq, hcy⟩)
        · exact Or.inl hc
        · exact Or.inr ⟨pid, Or.inl rfl, xs, hg, hcx⟩
        · exact Or.inr ⟨q, Or.inr hq, ys, hgq, hcy⟩
      · rintro (hc | ⟨q, (rfl | hq), ys, hgq, hcy⟩)
        · exact Or.inl (Or.inl hc)
        · rw [hg] at hgq
          injection hgq with hxy
          subst hxy
          exact Or.inl (Or.inr hcy)
        · exact Or.inr ⟨q, hq, ys, hgq, hcy⟩

/-- Characterization of membership in a role's effective permission set:
own permissions, or an active parent's effective permissions. -/
lemma mem_gREP_iff {role : Role} {allRoles : List Role}
    {visited : Finset String} {c : String} (hv : role.id ∉ visited) :
    c ∈ getRoleEffectivePermissions role allRoles visited ↔
      c ∈ role.permissions ∨
        ∃ pid ∈ role.inheritsFrom, ∃ p,
          allRoles.find? (fun r => r.id == pid && r.isActive) = some p ∧
          c ∈ getRoleEffectivePermissions p allRoles
            (insert role.id visited) := by
  rw [getRoleEffectivePermissions_eq, if_neg hv]
  by_cases hemp : role.inheritsFrom.isEmpty
  · have hnil : role.inheritsFrom = [] := by
      simpa using hemp
    simp [enableRoleInheritance, hnil, mem_addAll]
  · rw [if_pos (by simp [enableRoleInheritance, hemp])]
    have hbody : (fun (acc : List String) (pid : String) =>
        match allRoles.find? (fun r => r.id == pid && r.isActive) with
        | some parentRole =>
          addAll acc
            (getRoleEffectivePermissions parentRole allRoles
              (insert role.id visited))
        | none => acc) =
      (fun acc pid =>
        match (allRoles.find? (fun r => r.id == pid && r.isActive)).map
            (fun p => getRoleEffectivePermissions p allRoles
              (insert role.id visited)) with
        | some xs => addAll acc xs
        | none => acc) := by
      funext acc pid
      cases allRoles.find? (fun r => r.id == pid && r.isActive) <;> rfl
    rw [hbody, mem_parents_foldl]
    simp only [mem_addAll, List.not_mem_nil, false_or, Option.map_eq_some']
    constructor
    · rintro (hc | ⟨pid, hpid, xs, ⟨p, hfind, rfl⟩, hcx⟩)
      · exact Or.inl hc
      · exact Or.inr ⟨pid, hpid, p, hfind, hcx⟩
    · rintro (hc | ⟨pid, hpid, p, hfind, hcp⟩)
      · exact Or.inl hc
      · exact Or.inr ⟨pid, hpid, _, ⟨p, hfind, rfl⟩, hcp⟩

/-- Characterization of a successful `roleHasPermission` check on an
unvisited active role: own permission, or a parent grants it. -/
lemma rHP_true_iff {role : Role} {allRoles : List Role}
    {visited : Finset String} {c : String} (hv : role.id ∉ visited)
    (hact : role.isActive = true) :
    roleHasPermission role c allRoles visited = true ↔
      c ∈ role.permissions ∨
        ∃ pid ∈ role.inheritsFrom, ∃ p,
          allRoles.find? (fun r => r.id == pid) = some p ∧
          roleHasPermission p c allRoles (insert role.id visited) = true := by
  rw [roleHasPermission_eq, if_neg hv, hact]
  simp only [Bool.not_true, Bool.false_eq_true, if_false]
  by_cases hmem : role.permissions.contains c
  · have : c ∈ role.permissions := by simpa using hmem
    simp [hmem, this]
  · have hcmem : ¬ c ∈ role.permissions := by simpa using hmem
    rw [if_neg hmem]
    by_cases hemp : role.inheritsFrom.isEmpty
    · have hnil : role.inheritsFrom = [] := by simpa using hemp
      simp [enableRoleInheritance, hnil, hcmem]
    · rw [if_pos (by simp [enableRoleInheritance, hemp])]
      rw [List.any_eq_true]
      have hpt : ∀ pid : String,
          ((match allRoles.find? (fun r => r.id == pid) with
            | some parentRole =>
              roleHasPermission parentRole c allRoles (insert role.id visited)
            | none => false) = true) ↔
          ∃ p, allRoles.find? (fun r => r.id == pid) = some p ∧
            roleHasPermission p c allRoles (insert role.id visited) = true := by
        intro pid
        cases hf : allRoles.find? (fun r => r.id == pid) <;> simp [hf]
      simp only [hpt, hcmem, false_or]

/-- When role ids are pairwise distinct, the plain id lookup in
`roleHasPermission` and the id-and-active lookup in
`getRoleEffectivePermissions` find the same role, filtered by activity. -/
lemma find?_active_of_nodup {allRoles : List Role}
    (hnodup : (allRoles.map Role.id).Nodup) {pid : String} {p : Role}
    (h : allRoles.find? (fun r => r.id == pid) = some p) :
    allRoles.find? (fun r => r.id == pid && r.isActive) =
      if p.isActive then some p else none := by
  induction allRoles with
  | nil => simp at h
  | cons r t ih =>
    rw [List.map_cons, List.nodup_cons] at hnodup
    simp only [List.find?_cons] at h ⊢
    by_cases hr : (r.id == pid) = true
    · simp only [hr] at h
      injection h with h
      subst h
      simp only [hr, Bool.true_and]
      cases ha : r.isActive with
      | true => simp
      | false =>
        simp only [Bool.false_eq_true, if_false]
        rw [List.find?_eq_none]
        intro x hx
        simp only [Bool.and_eq_true, beq_iff_eq, not_and]
        intro hxid _
        apply hnodup.1
        rw [beq_iff_eq] at hr
        rw [hr, ← hxid]
        exact List.mem_map_of_mem Role.id hx
    · have hr' : (r.id == pid) = false := by
        simpa using hr
      simp only [hr'] at h ⊢
      simp only [Bool.false_and]
      exact ih hnodup.2 h

/-- Induction core for the C3 equivalence, on a bound for the number of
unvisited role ids. -/
lemma rHP_iff_gREP_aux (allRoles : List Role) (c : String)
    (hnodup : (allRoles.map Role.id).Nodup) :
    ∀ (n : Nat) (role : Role) (visited : Finset String),
      ((insert role.id (roleIds allRoles)) \ visited).card ≤ n →
      role.isActive = true →
      (roleHasPermission role c allRoles visited = true ↔
        c ∈ getRoleEffectivePermissions role allRoles visited) := by
  intro n
  induction n with
  | zero =>
    intro role visited hcard _hact
    have hv : role.id ∈ visited := by
      by_contra hv
      have hmem : role.id ∈ (insert role.id (roleIds allRoles)) \ visited := by
        simp [hv]
      have hpos : 0 < ((insert role.id (roleIds allRoles)) \ visited).card :=
        Finset.card_pos.mpr ⟨_, hmem⟩
      omega
    rw [roleHasPermission_eq, getRoleEffectivePermissions_eq, if_pos hv,
      if_pos hv]
    simp
  | succ n ih =>
    intro role visited hcard hact
    by_cases hv : role.id ∈ visited
    · rw [roleHasPermission_eq, getRoleEffectivePermissions_eq, if_pos hv,
        if_pos hv]
      simp
    · rw [rHP_true_iff hv hact, mem_gREP_iff hv]
      apply or_congr Iff.rfl
      apply exists_congr
      intro pid
      apply and_congr Iff.rfl
      constructor
      · rintro ⟨p, hfind, hrp⟩
        have hpact : p.isActive = true := by
          by_contra hpact
          rw [rHP_inactive (Bool.not_eq_true _ ▸ hpact : p.isActive = false)]
            at hrp
          exact Bool.false_ne_true hrp
        refine ⟨p, ?_, ?_⟩
        · rw [find?_active_of_nodup hnodup hfind, if_pos hpact]
        · have hlt := traversal_measure_lt allRoles role.id p.id visited hv
            (mem_roleIds_of_find? hfind)
          exact (ih p (insert role.id visited) (by omega) hpact).mp hrp
      · rintro ⟨p, hfind, hcp⟩
        have hp2 := List.find?_some hfind
        simp only [Bool.and_eq_true] at hp2
        have hpmem : p ∈ allRoles := List.mem_of_find?_eq_some hfind
        have hsome : (allRoles.find? (fun r => r.id == pid)).isSome := by
          rw [List.find?_isSome]
          exact ⟨p, hpmem, hp2.1⟩
        obtain ⟨q, hq⟩ := Option.isSome_iff_exists.mp hsome
        have hqif := find?_active_of_nodup hnodup hq
        rw [hfind] at hqif
        have hqp : q = p ∧ q.isActive = true := by
          by_cases hqa : q.isActive
          · rw [if_pos hqa] at hqif
            injection hqif with hqif
            exact ⟨hqif.symm, hqa⟩
          · rw [if_neg hqa] at hqif
            exact absurd hqif (by simp)
        obtain ⟨rfl, hqa⟩ := hqp.imp id id
        have hlt := traversal_measure_lt allRoles role.id q.id visited hv
          (mem_roleIds_of_find? hq)
        exact ⟨q, hq, (ih q (insert role.id visited) (by omega) hqa).mpr hcp⟩

/-- C3 counterexample: for an inactive role holding "employee:view:all"
directly, `roleHasPermission` answers false while the claim is a member of
`getRoleEffectivePermissions` (which never checks the queried role's own
`isActive` flag), so the stated equivalence fails for inactive roles. -/
theorem roleHasPermission_vs_effective_cex :
    (Role.mk "r1" "R1" ["employee:view:all"] [] false).isActive = false ∧
      roleHasPermission (Role.mk "r1" "R1" ["employee:view:all"] [] false)
        "employee:view:all"
        [Role.mk "r1" "R1" ["employee:view:all"] [] false] ∅ = false ∧
      "employee:view:all" ∈
        getRoleEffectivePermissions
          (Role.mk "r1" "R1" ["employee:view:all"] [] false)
          [Role.mk "r1" "R1" ["employee:view:all"] [] false] ∅ := by
  refine ⟨rfl, rHP_inactive rfl, ?_⟩
  rw [getRoleEffectivePermissions_eq]
  simp +decide [addAll, insertUnique]

/-- C3 (amended): for every ACTIVE role, every role set with pairwise
distinct role ids, and every claim, `roleHasPermission` returns true exactly
when the claim belongs to the role's inheritance-resolved effective
permission set.  (For an inactive role, or with duplicate ids resolved
differently by the two lookups, the equivalence fails, as the counterexample
shows.) -/
theorem roleHasPermission_iff_effective (role : Role) (c : String)
    (allRoles : List Role) (hact : role.isActive = true)
    (hnodup : (allRoles.map Role.id).Nodup) :
    roleHasPermission role c allRoles ∅ = true ↔
      c ∈ getRoleEffectivePermissions role allRoles ∅ :=
  rHP_iff_gREP_aux allRoles c hnodup
    ((insert role.id (roleIds allRoles)) \ ∅).card role ∅ le_rfl hact

/-- Witness for the amended C3 on a one-role set. -/
theorem roleHasPermission_iff_effective_witness :
    (Role.mk "r2" "R2" ["billing:view:all"] [] true).isActive = true ∧
      ([Role.mk "r2" "R2" ["billing:view:all"] [] true].map Role.id).Nodup ∧
      (roleHasPermission (Role.mk "r2" "R2" ["billing:view:all"] [] true)
          "billing:view:all"
          [Role.mk "r2" "R2" ["billing:view:all"] [] true] ∅ = true ↔
        "billing:view:all" ∈
          getRoleEffectivePermissions
            (Role.mk "r2" "R2" ["billing:view:all"] [] true)
            [Role.mk "r2" "R2" ["billing:view:all"] [] true] ∅) :=
  ⟨rfl, by decide,
    roleHasPermission_iff_effective
      (Role.mk "r2" "R2" ["billing:view:all"] [] true) "billing:view:all"
      [Role.mk "r2" "R2" ["billing:view:all"] [] true] rfl (by decide)⟩

/-- C6: role-inheritance resolution terminates on every finite role set —
`getRoleEffectivePermissions` is a total function, defined by well-founded
recursion on the unvisited role ids — and on the two-role cycle A ↔ B (both
active, inheritance enabled) it returns exactly the union of A's and B's
direct permission sets. -/
theorem cyclic_inheritance_union (pA pB : List String) (c : String) :
    c ∈ getRoleEffectivePermissions (Role.mk "a" "A" pA ["b"] true)
        [Role.mk "a" "A" pA ["b"] true, Role.mk "b" "B" pB ["a"] true] ∅ ↔
      c ∈ pA ∨ c ∈ pB := by
  have hf1 : List.find? (fun r => r.id == "b" && r.isActive)
      [Role.mk "a" "A" pA ["b"] true, Role.mk "b" "B" pB ["a"] true] =
      some (Role.mk "b" "B" pB ["a"] true) := by
    simp +decide [List.find?]
  have hf2 : List.find? (fun r => r.id == "a" && r.isActive)
      [Role.mk "a" "A" pA ["b"] true, Role.mk "b" "B" pB ["a"] true] =
      some (Role.mk "a" "A" pA ["b"] true) := by
    simp +decide [List.find?]
  rw [getRoleEffectivePermissions_eq]
  simp +decide only [hf1, List.foldl_cons, List.foldl_nil,
    enableRoleInheritance]
  rw [getRoleEffectivePermissions_eq]
  simp +decide only [hf2, List.foldl_cons, List.foldl_nil,
    enableRoleInheritance]
  rw [getRoleEffectivePermissions_eq]
  simp +decide [mem_addAll]

/-- Witness for C2 at the concrete valid triple (employee, view, all). -/
theorem roundtrip_parse_create_witness :
    resourceDefined "employee" = true ∧ actionDefined "view" = true ∧
      scopeDefined "all" = true ∧
      (createPermissionClaim "employee" "view" "all").bind
        parsePermissionClaim = .ok ("employee", "view", "all") :=
  ⟨by decide, by decide, by decide,
    roundtrip_parse_create "employee" "view" "all"
      (by decide) (by decide) (by decide)⟩

end NeoAuth
